import Mathlib

/-!
Verification of the CRM XML processor (src/crm-xml-processor.js).

The program is a linear DOM-mutation pipeline over an XML tree: remove
named elements, strip named attributes, insert ObjectTypeCode placeholder
children, driven by a static config, plus a CSV-style type-code loader and
a backup/write file shell.  We embed the tree, the three transformation
steps, the loader and processFile as pure Lean functions and prove the
specification claims about them.
-/

/-- An XML node: an element with a tag, an ordered attribute list and an
ordered child list, or a text node.  Parent links of the DOM are implicit
(mutation is modelled by rebuilding). -/
inductive XNode where
  | elem (tag : String) (attrs : List (String × String)) (children : List XNode)
  | text (s : String)

mutual
/-- Structural boolean equality on nodes. -/
def beqNode : XNode → XNode → Bool
  | .text s, .text t => s == t
  | .elem t1 a1 c1, .elem t2 a2 c2 => t1 == t2 && a1 == a2 && beqList c1 c2
  | _, _ => false

/-- Structural boolean equality on forests. -/
def beqList : List XNode → List XNode → Bool
  | [], [] => true
  | x :: xs, y :: ys => beqNode x y && beqList xs ys
  | _, _ => false
end

mutual
theorem beqNode_eq : ∀ a b, beqNode a b = true ↔ a = b
  | .text s, .text t => by simp [beqNode]
  | .text _, .elem _ _ _ => by simp [beqNode]
  | .elem _ _ _, .text _ => by simp [beqNode]
  | .elem t1 a1 c1, .elem t2 a2 c2 => by
      simp [beqNode, beqList_eq c1 c2, and_assoc]

theorem beqList_eq : ∀ xs ys, beqList xs ys = true ↔ xs = ys
  | [], [] => by simp [beqList]
  | [], _ :: _ => by simp [beqList]
  | _ :: _, [] => by simp [beqList]
  | x :: xs, y :: ys => by
      simp [beqList, beqNode_eq x y, beqList_eq xs ys]
end

instance : DecidableEq XNode := fun a b => decidable_of_iff _ (beqNode_eq a b)

/-- A document is its list of top-level nodes (the document node of the DOM
holds the root element; getElementsByTagName on the document searches all
of these subtrees). -/
abbrev XDoc := List XNode

mutual
/-- Number of elements with tag `tag` in the subtree, the node itself included. -/
def countNode (tag : String) : XNode → Nat
  | .text _ => 0
  | .elem t _ cs => (if t = tag then 1 else 0) + countList tag cs

/-- Number of elements with tag `tag` in a forest. -/
def countList (tag : String) : List XNode → Nat
  | [] => 0
  | c :: cs => countNode tag c + countList tag cs
end

mutual
/-- Pre-order (document-order) list of the elements with tag `tag` in the
subtree, the node itself included: the snapshot that
`Array.from(getElementsByTagName(tag))` takes. -/
def collectNode (tag : String) : XNode → List XNode
  | .text _ => []
  | .elem t a cs =>
      (if t = tag then [XNode.elem t a cs] else []) ++ collectList tag cs

/-- Pre-order list of the elements with tag `tag` in a forest. -/
def collectList (tag : String) : List XNode → List XNode
  | [] => []
  | c :: cs => collectNode tag c ++ collectList tag cs
end

mutual
/-- Remove every element with tag `tag` from the subtree: a matching node is
detached with its whole subtree (`none`); inside non-matching nodes the
children are cleaned recursively.  This is the net effect on the live tree
of detaching every snapshot match that still has a parent. -/
def removeAllNode (tag : String) : XNode → Option XNode
  | .text s => some (.text s)
  | .elem t a cs =>
      if t = tag then none else some (.elem t a (removeAllList tag cs))

/-- Remove every element with tag `tag` from a forest. -/
def removeAllList (tag : String) : List XNode → List XNode
  | [] => []
  | c :: cs =>
      (match removeAllNode tag c with
       | none => []
       | some c' => [c']) ++ removeAllList tag cs
end

mutual
/-- Number of topmost elements with tag `tag`: matches whose proper ancestors
do not match.  Exactly these subtrees are detached from the live document;
nested matches are detached only inside an already-detached subtree. -/
def countTopNode (tag : String) : XNode → Nat
  | .text _ => 0
  | .elem t _ cs => if t = tag then 1 else countTopList tag cs

/-- Number of topmost elements with tag `tag` in a forest. -/
def countTopList (tag : String) : List XNode → Nat
  | [] => 0
  | c :: cs => countTopNode tag c + countTopList tag cs
end

/-- One pass of `removeElements` for a single tag name: the reported count is
the length of the pre-mutation snapshot (`elementsArray.length`), the new
document has every match removed. -/
def removeElementsPass (doc : XDoc) (tag : String) : XDoc × Nat :=
  (removeAllList tag doc, (collectList tag doc).length)

/-- The `removeElements(doc, tagNames)` step: passes run in order, each on the
tree left by the previous one, and the per-tag counts are reported. -/
def removeElementsRun (tags : List String) (doc : XDoc) : XDoc × List (String × Nat) :=
  tags.foldl
    (fun acc tag =>
      let p := removeElementsPass acc.1 tag
      (p.1, acc.2 ++ [(tag, p.2)]))
    (doc, [])

/-- The `element.hasAttribute(name)` check on an attribute list. -/
def hasAttr (al : List (String × String)) (n : String) : Bool :=
  al.any (fun p => p.1 == n)

/-- The `element.removeAttribute(name)` mutation: DOM attribute names are
unique per element, so removing the first (only) pair with that name. -/
def removeAttr (al : List (String × String)) (n : String) : List (String × String) :=
  al.eraseP (fun p => p.1 == n)

/-- The inner `attributes.forEach` of `removeAttributes`: for each rule name
in order, if the attribute is present remove it and count the removal. -/
def removeAttrsFromElem (ras : List String) (al : List (String × String)) :
    List (String × String) × Nat :=
  ras.foldl
    (fun acc r => if hasAttr acc.1 r then (removeAttr acc.1 r, acc.2 + 1) else acc)
    (al, 0)

mutual
/-- The `removeAttributes(doc, tagName, attributes)` step on one subtree:
every element with the tag (nested matches included, as
getElementsByTagName lists all descendants) has the rule applied; the
returned count totals the individual attribute removals. -/
def removeAttributesNode (tag : String) (ras : List String) : XNode → XNode × Nat
  | .text s => (.text s, 0)
  | .elem t a cs =>
      let p := if t = tag then removeAttrsFromElem ras a else (a, 0)
      let q := removeAttributesList tag ras cs
      (.elem t p.1 q.1, p.2 + q.2)

/-- The `removeAttributes` step on a forest. -/
def removeAttributesList (tag : String) (ras : List String) :
    List XNode → List XNode × Nat
  | [] => ([], 0)
  | c :: cs =>
      let p := removeAttributesNode tag ras c
      let q := removeAttributesList tag ras cs
      (p.1 :: q.1, p.2 + q.2)
end

/-- The `removeAttributes` step on a document. -/
def removeAttributesDoc (tag : String) (ras : List String) (doc : XDoc) :
    XDoc × Nat :=
  removeAttributesList tag ras doc

mutual
/-- Concatenated text of the subtree: the DOM `textContent` getter. -/
def textContentNode : XNode → String
  | .text s => s
  | .elem _ _ cs => textContentList cs

/-- Concatenated text of a forest. -/
def textContentList : List XNode → String
  | [] => ""
  | c :: cs => textContentNode c ++ textContentList cs
end

/-- The element `createElement('ObjectTypeCode')` with `textContent = code`:
one text child holding the code. -/
def otcNode (code : String) : XNode :=
  .elem "ObjectTypeCode" [] [.text code]

/-- The `this.entityTypeCodes.get(entityName) || '##'` lookup: an empty name
is never a key (the getter yields undefined then), a missing or falsy
(empty) value yields the placeholder. -/
def lookupTypeCode (tbl : List (String × String)) (name : String) : String :=
  if name = "" then "##"
  else
    match tbl.lookup name with
    | some v => if v = "" then "##" else v
    | none => "##"

/-- The body of the per-entity loop of `addObjectTypeCode`, given the child
forest of an `Entity` element: when no descendant is named ObjectTypeCode
and some descendant is named Name, a new ObjectTypeCode element is built
from the first Name descendant's text and prepended (insertBefore firstChild
or appendChild); the two returned counters are the contributions to
`addedCount` and `notFoundCount`. -/
def entityStep (tbl : List (String × String)) (cs : List XNode) :
    List XNode × Nat × Nat :=
  if (collectList "ObjectTypeCode" cs).length = 0 then
    match collectList "Name" cs with
    | [] => ([], 0, 0)
    | nm :: _ =>
      let code := lookupTypeCode tbl (textContentNode nm)
      ([otcNode code], 1, if code = "##" then 1 else 0)
  else ([], 0, 0)

mutual
/-- The `addObjectTypeCode(doc)` step on one subtree.  The live NodeList of
Entity elements is traversed in document order and insertions never create,
delete or reorder Entity elements, so the loop is a top-down traversal: an
Entity node receives its prefix (the inserted ObjectTypeCode element, which
contains no Entity and is left as is by the rest of the loop) and then its
original children are processed.  Returns (new node, added, notFound). -/
def addObjectTypeCodeNode (tbl : List (String × String)) : XNode → XNode × Nat × Nat
  | .text s => (.text s, 0, 0)
  | .elem t a cs =>
      let p := if t = "Entity" then entityStep tbl cs else ([], 0, 0)
      let q := addObjectTypeCodeList tbl cs
      (.elem t a (p.1 ++ q.1), p.2.1 + q.2.1, p.2.2 + q.2.2)

/-- The `addObjectTypeCode` step on a forest. -/
def addObjectTypeCodeList (tbl : List (String × String)) :
    List XNode → List XNode × Nat × Nat
  | [] => ([], 0, 0)
  | c :: cs =>
      let p := addObjectTypeCodeNode tbl c
      let q := addObjectTypeCodeList tbl cs
      (p.1 :: q.1, p.2.1 + q.2.1, p.2.2 + q.2.2)
end

/-- The `addObjectTypeCode` step on a document. -/
def addObjectTypeCodeDoc (tbl : List (String × String)) (doc : XDoc) :
    XDoc × Nat × Nat :=
  addObjectTypeCodeList tbl doc

/-- Splitting a character list at every occurrence of a separator character,
as `String.prototype.split` with a one-character separator: `n` separators
yield `n + 1` (possibly empty) pieces. -/
def charSplitList (c : Char) : List Char → List (List Char)
  | [] => [[]]
  | x :: xs =>
    match charSplitList c xs with
    | [] => [[]]
    | h :: t => if x = c then [] :: h :: t else (x :: h) :: t

/-- Splitting `s` at a one-character separator, as `s.split(c)`. -/
def charSplit (c : Char) (s : String) : List String :=
  (charSplitList c s.data).map String.mk

/-- Trimming whitespace from both ends, as `s.trim()`. -/
def strTrim (s : String) : String :=
  String.mk (((s.data.dropWhile Char.isWhitespace).reverse.dropWhile
    Char.isWhitespace).reverse)

/-- Deleting every double quote, as the replace with the global quote pattern. -/
def stripQuotes (s : String) : String :=
  String.mk (s.data.filter (fun c => c ≠ '"'))

/-- Lower-casing every character, as `s.toLowerCase()`. -/
def strToLower (s : String) : String :=
  String.mk (s.data.map Char.toLower)

/-- Substring test, as `String.prototype.includes`. -/
def strContains (s pat : String) : Bool :=
  s.data.tails.any (fun t => pat.data.isPrefixOf t)

/-- The field clean-up `s.trim().replace(/"/g, '')`: trim whitespace, then
delete every double quote. -/
def cleanField (s : String) : String :=
  stripQuotes (strTrim s)

/-- The `Map.prototype.set` update on an association list: the new pair
replaces any earlier pair with the same key. -/
def mapSet (m : List (String × String)) (k v : String) : List (String × String) :=
  (k, v) :: m.filter (fun p => !(p.1 == k))

/-- One iteration of the CSV loop of `loadEntityTypeCodes`: trim the line,
split it on every comma, clean each piece, destructure the first two pieces
(a missing second piece is undefined, hence falsy), and insert the pair when
both pieces are non-empty (truthy). -/
def loadLine (m : List (String × String)) (l : String) : List (String × String) :=
  let line := strTrim l
  if line = "" then m
  else
    let parts := (charSplit ',' line).map cleanField
    match parts.get? 0, parts.get? 1 with
    | some e, some t => if e ≠ "" ∧ t ≠ "" then mapSet m e t else m
    | _, _ => m

/-- The `loadEntityTypeCodes` loader.  `file` is `config.entityTypeCodesFile`
(absent or the empty string are falsy: empty table, no warning); `read`
models `fs.readFileSync` (`none` is a thrown read error, caught: empty table
plus a warning).  Content is split into lines, blank lines dropped; on no
lines at all `lines[0].toLowerCase()` throws and is caught (empty table plus
a warning); a first line containing "entity" or "name" case-insensitively is
a header and skipped; the rest feed the line loop.  Returns the table and
whether the catch-branch warning was emitted. -/
def loadEntityTypeCodes (file : Option String) (read : String → Option String) :
    List (String × String) × Bool :=
  match file with
  | none => ([], false)
  | some p =>
    if p = "" then ([], false)
    else
      match read p with
      | none => ([], true)
      | some content =>
        let lines := (charSplit '\n' content).filter (fun l => strTrim l ≠ "")
        match lines with
        | [] => ([], true)
        | l0 :: _ =>
          let start : Nat :=
            if strContains (strToLower l0) "entity"
                || strContains (strToLower l0) "name"
            then 1 else 0
          ((lines.drop start).foldl loadLine [], false)

/-- A child-level tag test: whether some direct child is an element with the
given tag (the spec speaks of children where getElementsByTagName searches
all descendants). -/
def hasChildNamed (tag : String) (cs : List XNode) : Bool :=
  cs.any (fun c =>
    match c with
    | .elem t _ _ => t = tag
    | .text _ => false)

/-- The configuration shape read from config.json, the fields the pipeline
consults.  `none` models an absent field (falsy in the JS guards). -/
structure Config where
  removeElements : Option (List String)
  removeAttributes : Option (List (String × List String))
  addObjectTypeCode : Bool

/-- The transformation section of `processFile`: Step A runs when
`removeElements` is present and non-empty, Step B runs a pass per rule when
`removeAttributes` is present (even empty), Step C runs when the flag is
set.  Returns the transformed document. -/
def processDoc (cfg : Config) (tbl : List (String × String)) (doc : XDoc) : XDoc :=
  let d1 :=
    match cfg.removeElements with
    | some tags => if 0 < tags.length then (removeElementsRun tags doc).1 else doc
    | none => doc
  let d2 :=
    match cfg.removeAttributes with
    | some rules => rules.foldl (fun d r => (removeAttributesDoc r.1 r.2 d).1) d1
    | none => d1
  if cfg.addObjectTypeCode then (addObjectTypeCodeDoc tbl d2).1 else d2

/-- A file system: contents by path, `none` for a missing file. -/
def FS : Type := String → Option String

/-- Writing (or copying to) a path. -/
def fsSet (fs : FS) (p c : String) : FS :=
  fun q => if q = p then some c else fs q

/-- The backup path built by `createBackup`: the original path plus
".backup." plus the timestamp with every colon and dot replaced by a dash. -/
def backupPath (p ts : String) : String :=
  p ++ ".backup." ++
    String.mk (ts.data.map (fun c => if c = ':' || c = '.' then '-' else c))

/-- Outcome of `parser.parseFromString`: a document, or a thrown exception. -/
inductive ParseOutcome where
  | ok (d : XDoc)
  | err

/-- Result of a `processFile` run: the file system afterwards and the process
exit code (0 success, 1 for the catch branch). -/
structure ProcResult where
  fs : FS
  exitCode : Nat

/-- The `processFile` pipeline over the file-system model: copy the input to
the backup path, read it, parse it (`parse` models the external parser,
`serialize` the serializer, `ts` the timestamp); a thrown parse error or a
`parsererror` element in the parsed tree hits the catch branch (exit 1,
nothing further written); otherwise the transformed tree is serialized over
the original path (exit 0).  A missing input makes the backup copy throw
before anything is written. -/
def processFile (parse : String → ParseOutcome) (serialize : XDoc → String)
    (cfg : Config) (tbl : List (String × String)) (fs : FS) (path ts : String) :
    ProcResult :=
  match fs path with
  | none => { fs := fs, exitCode := 1 }
  | some content =>
    let fs1 := fsSet fs (backupPath path ts) content
    match parse content with
    | .err => { fs := fs1, exitCode := 1 }
    | .ok doc =>
      if 0 < countList "parsererror" doc then { fs := fs1, exitCode := 1 }
      else
        { fs := fsSet fs1 path (serialize (processDoc cfg tbl doc)), exitCode := 0 }

/-- No two attributes share a name: the DOM invariant for attribute maps. -/
def nodupKeys : List (String × String) → Bool
  | [] => true
  | p :: ps => !(hasAttr ps p.1) && nodupKeys ps

mutual
/-- Every element in the subtree satisfies the DOM invariant of uniquely
named attributes. -/
def wfAttrsNode : XNode → Bool
  | .text _ => true
  | .elem _ a cs => nodupKeys a && wfAttrsList cs

/-- Attribute well-formedness of a forest. -/
def wfAttrsList : List XNode → Bool
  | [] => true
  | c :: cs => wfAttrsNode c && wfAttrsList cs
end

mutual
/-- Specification-level Step B, written from the claim: on every element
with the rule's tag exactly the attributes whose names appear in the rule
are dropped and every other attribute is kept in order; all other elements
are untouched. -/
def specAttrRemoveNode (tag : String) (ras : List String) : XNode → XNode
  | .text s => .text s
  | .elem t a cs =>
      .elem t (if t = tag then a.filter (fun p => !(ras.contains p.1)) else a)
        (specAttrRemoveList tag ras cs)

/-- Specification-level Step B on a forest. -/
def specAttrRemoveList (tag : String) (ras : List String) : List XNode → List XNode
  | [] => []
  | c :: cs => specAttrRemoveNode tag ras c :: specAttrRemoveList tag ras cs
end

mutual
/-- Specification-level count for Step B: one per individual attribute
removed, not one per element touched. -/
def specAttrCountNode (tag : String) (ras : List String) : XNode → Nat
  | .text _ => 0
  | .elem t a cs =>
      (if t = tag then (a.filter (fun p => ras.contains p.1)).length else 0)
        + specAttrCountList tag ras cs

/-- Specification-level count for Step B on a forest. -/
def specAttrCountList (tag : String) (ras : List String) : List XNode → Nat
  | [] => 0
  | c :: cs => specAttrCountNode tag ras c + specAttrCountList tag ras cs
end

/-- Concrete entity whose Name child is shadowed by a nested Name descendant
in document order: children are a Wrap element holding a Name with text
"other", then a direct Name child with text "account". -/
def entityNameShadow : XNode :=
  .elem "Entity" []
    [ .elem "Wrap" [] [.elem "Name" [] [.text "other"]],
      .elem "Name" [] [.text "account"] ]

/-- Concrete entity that owns an ObjectTypeCode child and a nested Entity
child that has only a Name. -/
def entitySkipOuter : XNode :=
  .elem "Entity" []
    [ .elem "ObjectTypeCode" [] [.text "1"],
      .elem "Entity" [] [.elem "Name" [] [.text "x"]] ]

/-- Concrete wrapper element holding a Name element with text "x". -/
def wrapNameChild : XNode :=
  .elem "Wrap" [] [.elem "Name" [] [.text "x"]]

/-- Concrete entity with no Name child but a Name descendant inside a Wrap
child. -/
def entityNestedNameOnly : XNode :=
  .elem "Entity" [] [wrapNameChild]

/-- Concrete document with one root holding two childless Foo elements. -/
def docTwoFoos : XDoc :=
  [ .elem "root" [] [.elem "Foo" [] [.text "a"], .elem "Foo" [] []] ]

/-- Concrete document with a Foo element nested inside another Foo element. -/
def docNestedFoo : XDoc :=
  [ .elem "root" [] [.elem "Foo" [] [.elem "Foo" [] []]] ]

/-- Concrete option element carrying a Color and an ExternalValue attribute. -/
def optionElem : XNode :=
  .elem "option" [("Color", "x"), ("ExternalValue", "y")] []

/-! ## Basic lemmas about counting, collection and removal -/

theorem countList_append (tag : String) :
    ∀ l1 l2 : List XNode,
      countList tag (l1 ++ l2) = countList tag l1 + countList tag l2
  | [], l2 => by simp [countList]
  | c :: cs, l2 => by
      simp [countList, countList_append tag cs l2, Nat.add_assoc]

mutual
theorem collectNode_length : ∀ (tag : String) (n : XNode),
    (collectNode tag n).length = countNode tag n
  | _, .text _ => by simp [collectNode, countNode]
  | tag, .elem t a cs => by
      by_cases h : t = tag <;>
        simp [collectNode, countNode, h, collectList_length tag cs]
      all_goals omega

theorem collectList_length : ∀ (tag : String) (l : List XNode),
    (collectList tag l).length = countList tag l
  | _, [] => by simp [collectList, countList]
  | tag, c :: cs => by
      simp [collectList, countList, collectNode_length tag c,
        collectList_length tag cs]
end

mutual
theorem removeAllNode_count : ∀ (tag : String) (n : XNode),
    countList tag
      (match removeAllNode tag n with
       | none => []
       | some c => [c]) = 0
  | _, .text _ => by simp [removeAllNode, countList, countNode]
  | tag, .elem t a cs => by
      by_cases h : t = tag <;>
        simp [removeAllNode, h, countList, countNode,
          removeAllList_count tag cs]

theorem removeAllList_count : ∀ (tag : String) (l : List XNode),
    countList tag (removeAllList tag l) = 0
  | _, [] => by simp [removeAllList, countList]
  | tag, c :: cs => by
      simp [removeAllList, countList_append, removeAllNode_count tag c,
        removeAllList_count tag cs]
end

mutual
theorem countTopNode_le : ∀ (tag : String) (n : XNode),
    countTopNode tag n ≤ countNode tag n
  | _, .text _ => by simp [countTopNode, countNode]
  | tag, .elem t a cs => by
      by_cases h : t = tag
      · simp only [countTopNode, countNode, if_pos h]
        exact Nat.le_add_right 1 _
      · simp only [countTopNode, countNode, if_neg h, Nat.zero_add]
        exact countTopList_le tag cs

theorem countTopList_le : ∀ (tag : String) (l : List XNode),
    countTopList tag l ≤ countList tag l
  | _, [] => by simp [countTopList, countList]
  | tag, c :: cs =>
      Nat.add_le_add (countTopNode_le tag c) (countTopList_le tag cs)
end

/-! ## Lemmas about the addObjectTypeCode step -/

theorem lookupTypeCode_nil (n : String) : lookupTypeCode [] n = "##" := by
  by_cases h : n = "" <;> simp [lookupTypeCode, h, List.lookup]

theorem entityStep_nil_counts (cs : List XNode) :
    (entityStep [] cs).2.1 = (entityStep [] cs).2.2 := by
  unfold entityStep
  by_cases h : (collectList "ObjectTypeCode" cs).length = 0
  · cases hc : collectList "Name" cs with
    | nil => simp [h, hc]
    | cons nm rest => simp [h, hc, lookupTypeCode_nil]
  · simp [h]

mutual
theorem addObjectTypeCodeNode_nil_counts : ∀ n : XNode,
    (addObjectTypeCodeNode [] n).2.1 = (addObjectTypeCodeNode [] n).2.2
  | .text _ => by simp [addObjectTypeCodeNode]
  | .elem t a cs => by
      have h1 := entityStep_nil_counts cs
      have h2 := addObjectTypeCodeList_nil_counts cs
      by_cases ht : t = "Entity" <;>
        simp [addObjectTypeCodeNode, ht]
      all_goals omega

theorem addObjectTypeCodeList_nil_counts : ∀ l : List XNode,
    (addObjectTypeCodeList [] l).2.1 = (addObjectTypeCodeList [] l).2.2
  | [] => by simp [addObjectTypeCodeList]
  | c :: cs => by
      have h1 := addObjectTypeCodeNode_nil_counts c
      have h2 := addObjectTypeCodeList_nil_counts cs
      simp [addObjectTypeCodeList]
      omega
end

mutual
theorem addObjectTypeCodeNode_no_name : ∀ (tbl : List (String × String)) (n : XNode),
    countNode "Name" n = 0 → addObjectTypeCodeNode tbl n = (n, 0, 0)
  | _, .text s, _ => by simp [addObjectTypeCodeNode]
  | tbl, .elem t a cs, h => by
      have hcs : countList "Name" cs = 0 := by
        simp only [countNode] at h
        omega
      have hcoll : collectList "Name" cs = [] := by
        have := collectList_length "Name" cs
        rw [hcs] at this
        exact List.length_eq_zero.mp this
      have hstep : entityStep tbl cs = ([], 0, 0) := by
        unfold entityStep
        simp [hcoll]
      simp [addObjectTypeCodeNode, hstep,
        addObjectTypeCodeList_no_name tbl cs hcs]

theorem addObjectTypeCodeList_no_name : ∀ (tbl : List (String × String)) (l : List XNode),
    countList "Name" l = 0 → addObjectTypeCodeList tbl l = (l, 0, 0)
  | _, [], _ => by simp [addObjectTypeCodeList]
  | tbl, c :: cs, h => by
      have h1 : countNode "Name" c = 0 := by
        simp only [countList] at h
        omega
      have h2 : countList "Name" cs = 0 := by
        simp only [countList] at h
        omega
      simp [addObjectTypeCodeList, addObjectTypeCodeNode_no_name tbl c h1,
        addObjectTypeCodeList_no_name tbl cs h2]
end

/-! ## Lemmas about attribute removal -/

theorem hasAttr_filter (al : List (String × String)) (f : String × String → Bool)
    (n : String) (h : hasAttr al n = false) : hasAttr (al.filter f) n = false := by
  simp only [hasAttr, List.any_eq_false] at h ⊢
  intro p hp
  exact h p (List.mem_filter.mp hp).1

theorem nodupKeys_filter : ∀ (al : List (String × String)) (f : String × String → Bool),
    nodupKeys al = true → nodupKeys (al.filter f) = true
  | [], _, _ => by simp [nodupKeys]
  | p :: ps, f, h => by
      have h1 : hasAttr ps p.1 = false := by
        simp [nodupKeys] at h
        exact h.1
      have h2 : nodupKeys ps = true := by
        simp [nodupKeys] at h
        exact h.2
      by_cases hf : f p = true
      · simp [List.filter_cons, hf, nodupKeys, hasAttr_filter ps f p.1 h1,
          nodupKeys_filter ps f h2]
      · simp only [Bool.not_eq_true] at hf
        simp [List.filter_cons, hf, nodupKeys_filter ps f h2]

theorem removeAttr_eq_filter : ∀ (al : List (String × String)) (n : String),
    nodupKeys al = true → hasAttr al n = true →
    removeAttr al n = al.filter (fun p => !(p.1 == n))
  | [], n, _, hn => by simp [hasAttr] at hn
  | p :: ps, n, h, hn => by
      have h1 : hasAttr ps p.1 = false := by
        simp [nodupKeys] at h
        exact h.1
      have h2 : nodupKeys ps = true := by
        simp [nodupKeys] at h
        exact h.2
      by_cases hp : p.1 == n
      · have hpn : p.1 = n := by simpa using hp
        have hps : ps.filter (fun q => !(q.1 == n)) = ps := by
          rw [List.filter_eq_self]
          intro q hq
          have : (q.1 == n) = false := by
            rw [← hpn]
            simp only [hasAttr, List.any_eq_false] at h1
            simpa using h1 q hq
          simp [this]
        simp [removeAttr, List.eraseP_cons, hp, List.filter_cons, hps]
      · have hn' : hasAttr ps n = true := by
          simp only [hasAttr, List.any_cons, hp, Bool.false_or] at hn
          exact hn
        have hrest := removeAttr_eq_filter ps n h2 hn'
        simp only [Bool.not_eq_true] at hp
        simp [removeAttr, List.eraseP_cons, hp, List.filter_cons,
          ← hrest, removeAttr]

theorem count_name_one : ∀ (al : List (String × String)) (n : String),
    nodupKeys al = true → hasAttr al n = true →
    (al.filter (fun p => p.1 == n)).length = 1
  | [], n, _, hn => by simp [hasAttr] at hn
  | p :: ps, n, h, hn => by
      have h1 : hasAttr ps p.1 = false := by
        simp [nodupKeys] at h
        exact h.1
      have h2 : nodupKeys ps = true := by
        simp [nodupKeys] at h
        exact h.2
      by_cases hp : p.1 == n
      · have hpn : p.1 = n := by simpa using hp
        have hps : ps.filter (fun q => q.1 == n) = [] := by
          rw [List.filter_eq_nil_iff]
          intro q hq
          have : (q.1 == n) = false := by
            rw [← hpn]
            simp only [hasAttr, List.any_eq_false] at h1
            simpa using h1 q hq
          simp [this]
        simp [List.filter_cons, hp, hps]
      · have hn' : hasAttr ps n = true := by
          simp only [hasAttr, List.any_cons, hp, Bool.false_or] at hn
          exact hn
        simp only [Bool.not_eq_true] at hp
        simp [List.filter_cons, hp, count_name_one ps n h2 hn']

theorem length_filter_or :
    ∀ (al : List (String × String)) (p q : String × String → Bool),
      (al.filter (fun x => p x || q x)).length
        = (al.filter p).length + (al.filter (fun x => !(p x) && q x)).length
  | [], _, _ => by simp
  | a :: al, p, q => by
      have ih := length_filter_or al p q
      by_cases hp : p a = true <;> by_cases hq : q a = true <;>
        simp [List.filter_cons, hp, hq, ih] <;> omega


theorem removeAttrs_foldl_shift :
    ∀ (ras : List String) (al : List (String × String)) (k : Nat),
      ras.foldl
        (fun acc r => if hasAttr acc.1 r then (removeAttr acc.1 r, acc.2 + 1) else acc)
        (al, k)
        = ((removeAttrsFromElem ras al).1, k + (removeAttrsFromElem ras al).2)
  | [], al, k => by simp [removeAttrsFromElem]
  | r :: rs, al, k => by
      by_cases h : hasAttr al r = true
      · have e1 := removeAttrs_foldl_shift rs (removeAttr al r) (k + 1)
        have e2 := removeAttrs_foldl_shift rs (removeAttr al r) 1
        simp only [removeAttrsFromElem] at e1 e2
        simp only [removeAttrsFromElem, List.foldl_cons, if_pos h, Nat.zero_add]
        rw [e1, e2, Prod.ext_iff]
        exact ⟨rfl, by omega⟩
      · have hf : hasAttr al r = false := by simpa using h
        have e1 := removeAttrs_foldl_shift rs al k
        simp only [removeAttrsFromElem] at e1
        simp only [removeAttrsFromElem, List.foldl_cons, hf, Bool.false_eq_true,
          if_false]
        exact e1

theorem removeAttrsFromElem_spec :
    ∀ (ras : List String) (al : List (String × String)),
      nodupKeys al = true →
      removeAttrsFromElem ras al
        = (al.filter (fun p => !(ras.contains p.1)),
           (al.filter (fun p => ras.contains p.1)).length)
  | [], al, _ => by simp [removeAttrsFromElem]
  | r :: rs, al, h => by
      by_cases hr : hasAttr al r = true
      · have hal : removeAttr al r = al.filter (fun p => !(p.1 == r)) :=
          removeAttr_eq_filter al r h hr
        have hnd : nodupKeys (al.filter (fun p => !(p.1 == r))) = true :=
          nodupKeys_filter al _ h
        have ih := removeAttrsFromElem_spec rs (al.filter (fun p => !(p.1 == r))) hnd
        have step : removeAttrsFromElem (r :: rs) al
            = ((removeAttrsFromElem rs (removeAttr al r)).1,
               1 + (removeAttrsFromElem rs (removeAttr al r)).2) := by
          simp only [removeAttrsFromElem, List.foldl_cons, if_pos hr, Nat.zero_add]
          exact removeAttrs_foldl_shift rs (removeAttr al r) 1
        have hattrs : (al.filter (fun p => !(p.1 == r))).filter
              (fun p => !(rs.contains p.1))
            = al.filter (fun p => !((r :: rs).contains p.1)) := by
          rw [List.filter_filter]
          apply List.filter_congr
          intro p _
          simp only [List.contains_cons, Bool.not_or]
          rw [Bool.and_comm]
        have hcount : (al.filter (fun p => (r :: rs).contains p.1)).length
            = 1 + ((al.filter (fun p => !(p.1 == r))).filter
                    (fun p => rs.contains p.1)).length := by
          have e0 : al.filter (fun p => (r :: rs).contains p.1)
              = al.filter (fun p => (p.1 == r) || rs.contains p.1) := by
            apply List.filter_congr
            intro p _
            simp only [List.contains_cons]
          rw [e0,
            length_filter_or al (fun p => p.1 == r) (fun p => rs.contains p.1),
            count_name_one al r h hr, List.filter_filter]
          congr 1
          apply congrArg List.length
          apply List.filter_congr
          intro p _
          rw [Bool.and_comm]
        rw [step, hal, ih, Prod.ext_iff]
        exact ⟨hattrs, by rw [hcount]⟩
      · have hrf : hasAttr al r = false := by simpa using hr
        have hnone : ∀ p ∈ al, (p.1 == r) = false := by
          simp only [hasAttr, List.any_eq_false] at hrf
          intro p hp
          simpa using hrf p hp
        have ih := removeAttrsFromElem_spec rs al h
        have step : removeAttrsFromElem (r :: rs) al = removeAttrsFromElem rs al := by
          simp only [removeAttrsFromElem, List.foldl_cons, hrf, Bool.false_eq_true,
            if_false]
        have hattrs : al.filter (fun p => !(rs.contains p.1))
            = al.filter (fun p => !((r :: rs).contains p.1)) := by
          apply List.filter_congr
          intro p hp
          simp only [List.contains_cons, hnone p hp, Bool.false_or]
        have hcount : al.filter (fun p => rs.contains p.1)
            = al.filter (fun p => (r :: rs).contains p.1) := by
          apply List.filter_congr
          intro p hp
          simp only [List.contains_cons, hnone p hp, Bool.false_or]
        rw [step, ih, Prod.ext_iff]
        exact ⟨hattrs, by rw [hcount]⟩

mutual
theorem removeAttributesNode_spec : ∀ (tag : String) (ras : List String) (n : XNode),
    wfAttrsNode n = true →
    removeAttributesNode tag ras n
      = (specAttrRemoveNode tag ras n, specAttrCountNode tag ras n)
  | tag, ras, .text s, _ => by
      simp [removeAttributesNode, specAttrRemoveNode, specAttrCountNode]
  | tag, ras, .elem t a cs, h => by
      have h1 : nodupKeys a = true := by
        simp [wfAttrsNode] at h
        exact h.1
      have h2 : wfAttrsList cs = true := by
        simp [wfAttrsNode] at h
        exact h.2
      have ihl := removeAttributesList_spec tag ras cs h2
      by_cases ht : t = tag
      · simp [removeAttributesNode, specAttrRemoveNode, specAttrCountNode, ht, ihl,
          removeAttrsFromElem_spec ras a h1]
      · simp [removeAttributesNode, specAttrRemoveNode, specAttrCountNode, ht, ihl]

theorem removeAttributesList_spec : ∀ (tag : String) (ras : List String) (l : List XNode),
    wfAttrsList l = true →
    removeAttributesList tag ras l
      = (specAttrRemoveList tag ras l, specAttrCountList tag ras l)
  | tag, ras, [], _ => by
      simp [removeAttributesList, specAttrRemoveList, specAttrCountList]
  | tag, ras, c :: cs, h => by
      have h1 : wfAttrsNode c = true := by
        simp [wfAttrsList] at h
        exact h.1
      have h2 : wfAttrsList cs = true := by
        simp [wfAttrsList] at h
        exact h.2
      simp [removeAttributesList, specAttrRemoveList, specAttrCountList,
        removeAttributesNode_spec tag ras c h1,
        removeAttributesList_spec tag ras cs h2]
end

/-! ## Lemmas about the file-system model and the lookup table -/

theorem backupPath_ne (p ts : String) : backupPath p ts ≠ p := by
  intro h
  have h8 : (".backup." : String).length = 8 := by decide
  have hl := congrArg String.length h
  simp only [backupPath, String.length_append, h8] at hl
  omega

theorem fsSet_same (fs : FS) (p c : String) : fsSet fs p c p = some c := by
  simp [fsSet]

theorem fsSet_other (fs : FS) (p c q : String) (h : q ≠ p) :
    fsSet fs p c q = fs q := by
  simp [fsSet, h]

theorem lookup_filter_ne :
    ∀ (m : List (String × String)) (k k' : String), (k' == k) = false →
      List.lookup k' (m.filter (fun p => !(p.1 == k))) = List.lookup k' m
  | [], _, _, _ => rfl
  | (pk, pv) :: ps, k, k', h => by
      by_cases hp : (pk == k) = true
      · have h1 : pk = k := by simpa using hp
        have hk : (k' == pk) = false := by
          rw [h1]
          exact h
        simp [List.filter_cons, hp, List.lookup, hk, lookup_filter_ne ps k k' h]
      · cases hkp : (k' == pk) <;>
          simp [List.filter_cons, hp, List.lookup, hkp, lookup_filter_ne ps k k' h]

theorem lookup_mapSet (m : List (String × String)) (k v k' : String) :
    List.lookup k' (mapSet m k v) = if k' = k then some v else List.lookup k' m := by
  by_cases h : k' = k
  · subst h
    simp [mapSet, List.lookup]
  · have hk : (k' == k) = false := by simp [h]
    simp [mapSet, List.lookup, hk, h, lookup_filter_ne m k k' hk]

/-! ## Claim theorems -/

/-- C6: for every config with empty removeElements, empty or absent
removeAttributes and addObjectTypeCode false, the pipeline is the identity
on the document: the output tree equals the input tree. -/
theorem pipeline_identity_on_trivial_config (tbl : List (String × String))
    (doc : XDoc) :
    processDoc ⟨some [], some [], false⟩ tbl doc = doc
    ∧ processDoc ⟨some [], none, false⟩ tbl doc = doc := by
  constructor <;> simp [processDoc]

/-- C8: removing one tag name from a document with N matching elements, none
nested inside another match (every match is topmost), leaves zero matching
elements and reports the pair (tag, N). -/
theorem removeElements_removes_all_and_counts (tag : String) (doc : XDoc)
    (N : Nat) (hN : countList tag doc = N)
    (hnest : countTopList tag doc = countList tag doc) :
    countList tag (removeElementsRun [tag] doc).1 = 0
    ∧ (removeElementsRun [tag] doc).2 = [(tag, N)] := by
  refine ⟨?_, ?_⟩
  · simp [removeElementsRun, removeElementsPass, removeAllList_count]
  · simp [removeElementsRun, removeElementsPass, collectList_length, hN]

/-- Witness for C8 on a document with two sibling Foo elements. -/
theorem removeElements_removes_all_and_counts_witness :
    countList "Foo" docTwoFoos = 2
    ∧ countTopList "Foo" docTwoFoos = countList "Foo" docTwoFoos
    ∧ countList "Foo" (removeElementsRun ["Foo"] docTwoFoos).1 = 0
    ∧ (removeElementsRun ["Foo"] docTwoFoos).2 = [("Foo", 2)] :=
  ⟨by decide, by decide,
    (removeElements_removes_all_and_counts "Foo" docTwoFoos 2 (by decide)
      (by decide)).1,
    (removeElements_removes_all_and_counts "Foo" docTwoFoos 2 (by decide)
      (by decide)).2⟩

/-- C10: the count reported by a removeElements pass is the size of the
pre-mutation snapshot, i.e. the number of elements with that tag in the
whole document, nested same-name matches included; at most that many
subtrees are detached from the live document (only topmost matches are),
and on a document with a Foo inside a Foo the report says 2 while only 1
subtree leaves the live document. -/
theorem removeElements_pass_count_semantics :
    (∀ (doc : XDoc) (tag : String),
      (removeElementsPass doc tag).2 = countList tag doc)
    ∧ (∀ (doc : XDoc) (tag : String), countTopList tag doc ≤ countList tag doc)
    ∧ (removeElementsPass docNestedFoo "Foo").2 = 2
    ∧ countTopList "Foo" docNestedFoo = 1
    ∧ countList "Foo" (removeElementsPass docNestedFoo "Foo").1 = 0 := by
  refine ⟨?_, ?_, by decide, by decide, by decide⟩
  · intro doc tag
    simp [removeElementsPass, collectList_length]
  · intro doc tag
    exact countTopList_le tag doc

/-- C2: when the parse throws or the parsed tree holds a parsererror
sentinel element, processFile leaves the input path untouched, leaves the
already-written backup holding the original content, and exits non-zero. -/
theorem processFile_aborts_on_parse_error
    (parse : String → ParseOutcome) (serialize : XDoc → String) (cfg : Config)
    (tbl : List (String × String)) (fs : FS) (path ts content : String)
    (hfs : fs path = some content)
    (herr : parse content = ParseOutcome.err ∨
      ∃ d, parse content = ParseOutcome.ok d ∧ 0 < countList "parsererror" d) :
    (processFile parse serialize cfg tbl fs path ts).fs path = fs path
    ∧ (processFile parse serialize cfg tbl fs path ts).fs (backupPath path ts)
        = some content
    ∧ (processFile parse serialize cfg tbl fs path ts).exitCode ≠ 0 := by
  have hpb : path ≠ backupPath path ts := fun hh => (backupPath_ne path ts) hh.symm
  rcases herr with he | ⟨d, hd, hcnt⟩
  · refine ⟨?_, ?_, ?_⟩ <;>
      simp [processFile, hfs, he, fsSet_same,
        fsSet_other fs (backupPath path ts) content path hpb]
  · refine ⟨?_, ?_, ?_⟩ <;>
      simp [processFile, hfs, hd, hcnt, fsSet_same,
        fsSet_other fs (backupPath path ts) content path hpb]

/-- Witness for C2: a parse that throws on a one-file file system. -/
theorem processFile_aborts_on_parse_error_witness :
    (processFile (fun _ => ParseOutcome.err) (fun _ => "") ⟨none, none, false⟩ []
        (fun q => if q = "f.xml" then some "<a" else none) "f.xml" "T").fs "f.xml"
      = (fun q => if q = "f.xml" then some "<a" else none : FS) "f.xml"
    ∧ (processFile (fun _ => ParseOutcome.err) (fun _ => "") ⟨none, none, false⟩ []
        (fun q => if q = "f.xml" then some "<a" else none) "f.xml" "T").fs
        (backupPath "f.xml" "T") = some "<a"
    ∧ (processFile (fun _ => ParseOutcome.err) (fun _ => "") ⟨none, none, false⟩ []
        (fun q => if q = "f.xml" then some "<a" else none) "f.xml" "T").exitCode
        ≠ 0 :=
  processFile_aborts_on_parse_error (fun _ => ParseOutcome.err) (fun _ => "")
    ⟨none, none, false⟩ [] (fun q => if q = "f.xml" then some "<a" else none)
    "f.xml" "T" "<a" (by simp) (Or.inl rfl)

/-- C9: on attribute maps with uniquely named attributes (the DOM invariant),
Step B for a rule (tag, attributeNames) removes from every element with the
tag exactly the attributes whose names appear in the rule, keeps every other
attribute in order, leaves every other element untouched, and reports the
total number of individual attribute removals. -/
theorem removeAttributes_rule_semantics (tag : String) (ras : List String)
    (doc : XDoc) (al : List (String × String))
    (hdoc : wfAttrsList doc = true) (hal : nodupKeys al = true) :
    removeAttributesDoc tag ras doc
      = (specAttrRemoveList tag ras doc, specAttrCountList tag ras doc)
    ∧ removeAttrsFromElem ras al
      = (al.filter (fun p => !(ras.contains p.1)),
         (al.filter (fun p => ras.contains p.1)).length) :=
  ⟨removeAttributesList_spec tag ras doc hdoc,
    removeAttrsFromElem_spec ras al hal⟩

/-- Witness for C9 on the spec example: an option element with Color and
ExternalValue and the rule stripping Color loses only Color and counts one
removal. -/
theorem removeAttributes_rule_semantics_witness :
    wfAttrsList [optionElem] = true
    ∧ nodupKeys [("Color", "x"), ("ExternalValue", "y")] = true
    ∧ removeAttributesDoc "option" ["Color"] [optionElem]
        = ([XNode.elem "option" [("ExternalValue", "y")] []], 1)
    ∧ removeAttrsFromElem ["Color"] [("Color", "x"), ("ExternalValue", "y")]
        = ([("ExternalValue", "y")], 1) := by
  refine ⟨by decide, by decide, ?_, ?_⟩
  · exact (removeAttributes_rule_semantics "option" ["Color"] [optionElem]
      [("Color", "x"), ("ExternalValue", "y")] (by decide) (by decide)).1.trans
      (by decide)
  · exact (removeAttributes_rule_semantics "option" ["Color"] [optionElem]
      [("Color", "x"), ("ExternalValue", "y")] (by decide) (by decide)).2.trans
      (by decide)

/-- C7: a set but unreadable type-code resource is non-fatal: the loader
returns the empty table and flags its warning, every lookup in the empty
table yields the placeholder (so every inserted ObjectTypeCode element holds
"##": the added and not-found counters coincide), and processFile still
exits 0 when nothing else fails. -/
theorem lookup_table_failure_is_nonfatal
    (p : String) (read : String → Option String)
    (parse : String → ParseOutcome) (serialize : XDoc → String) (cfg : Config)
    (fs : FS) (path ts content : String) (d : XDoc) (n : String) (cs : XDoc)
    (hp : p ≠ "") (hread : read p = none)
    (hfs : fs path = some content) (hparse : parse content = ParseOutcome.ok d)
    (hsent : countList "parsererror" d = 0) :
    loadEntityTypeCodes (some p) read = ([], true)
    ∧ lookupTypeCode [] n = "##"
    ∧ (addObjectTypeCodeDoc [] cs).2.1 = (addObjectTypeCodeDoc [] cs).2.2
    ∧ (processFile parse serialize cfg [] fs path ts).exitCode = 0 := by
  refine ⟨?_, lookupTypeCode_nil n, addObjectTypeCodeList_nil_counts cs, ?_⟩
  · simp [loadEntityTypeCodes, hp, hread]
  · simp [processFile, hfs, hparse, hsent]

/-- Witness for C7: missing resource, one Entity document, exit 0. -/
theorem lookup_table_failure_is_nonfatal_witness :
    loadEntityTypeCodes (some "codes.csv") (fun _ => none) = ([], true)
    ∧ lookupTypeCode [] "account" = "##"
    ∧ (addObjectTypeCodeDoc []
        [XNode.elem "Entity" [] [.elem "Name" [] [.text "q"]]]).2.1
      = (addObjectTypeCodeDoc []
          [XNode.elem "Entity" [] [.elem "Name" [] [.text "q"]]]).2.2
    ∧ (processFile (fun _ => ParseOutcome.ok [XNode.elem "r" [] []]) (fun _ => "")
        ⟨none, none, true⟩ []
        (fun q => if q = "c.xml" then some "x" else none) "c.xml" "T").exitCode
      = 0 :=
  lookup_table_failure_is_nonfatal "codes.csv" (fun _ => none)
    (fun _ => ParseOutcome.ok [XNode.elem "r" [] []]) (fun _ => "")
    ⟨none, none, true⟩ (fun q => if q = "c.xml" then some "x" else none)
    "c.xml" "T" "x" [XNode.elem "r" [] []] "account"
    [XNode.elem "Entity" [] [.elem "Name" [] [.text "q"]]]
    (by decide) rfl (by simp) rfl (by decide)

/-- C1 counterexample: an Entity whose direct Name child reads "account"
(with table code "1") but whose first Name descendant in document order is a
nested "other": the code inserts the placeholder "##", not the table's code
"1" for the Name child's text, so Step C does not use the Name child. -/
theorem addObjectTypeCode_name_child_counterexample :
    entityNameShadow
      = .elem "Entity" []
          [ .elem "Wrap" [] [.elem "Name" [] [.text "other"]],
            .elem "Name" [] [.text "account"] ]
    ∧ hasChildNamed "Name"
        [ XNode.elem "Wrap" [] [.elem "Name" [] [.text "other"]],
          XNode.elem "Name" [] [.text "account"] ] = true
    ∧ List.lookup "account" [("account", "1")] = some "1"
    ∧ addObjectTypeCodeDoc [("account", "1")] [entityNameShadow]
        = ([XNode.elem "Entity" []
             [ otcNode "##",
               .elem "Wrap" [] [.elem "Name" [] [.text "other"]],
               .elem "Name" [] [.text "account"] ]],
           1, 1)
    ∧ ("##" : String) ≠ "1" := by decide

/-- C1 amended: for every Entity element with no ObjectTypeCode descendant
and at least one Name descendant, Step C inserts a new ObjectTypeCode
element as the first child (before any existing first child, or as the only
child if childless), whose sole text content is the table's code for the
text of the first Name descendant in document order, or "##" when that
lookup misses; the insertion counts once towards added, and towards
not-found exactly when the placeholder was used. -/
theorem addObjectTypeCode_inserts_first_child (tbl : List (String × String))
    (a : List (String × String)) (cs : List XNode) (nm : XNode)
    (rest : List XNode)
    (hOtc : collectList "ObjectTypeCode" cs = [])
    (hName : collectList "Name" cs = nm :: rest) :
    addObjectTypeCodeNode tbl (.elem "Entity" a cs)
      = (.elem "Entity" a
          (otcNode (lookupTypeCode tbl (textContentNode nm))
            :: (addObjectTypeCodeList tbl cs).1),
         1 + (addObjectTypeCodeList tbl cs).2.1,
         (if lookupTypeCode tbl (textContentNode nm) = "##" then 1 else 0)
           + (addObjectTypeCodeList tbl cs).2.2) := by
  simp [addObjectTypeCodeNode, entityStep, hOtc, hName]

/-- Witness for the amended C1 on a childless-but-Name entity with a match
in the table. -/
theorem addObjectTypeCode_inserts_first_child_witness :
    collectList "ObjectTypeCode" [XNode.elem "Name" [] [.text "account"]] = []
    ∧ collectList "Name" [XNode.elem "Name" [] [.text "account"]]
        = [XNode.elem "Name" [] [.text "account"]]
    ∧ addObjectTypeCodeNode [("account", "1")]
        (.elem "Entity" [] [.elem "Name" [] [.text "account"]])
        = (.elem "Entity" [] [otcNode "1", .elem "Name" [] [.text "account"]],
           1, 0) := by
  refine ⟨by decide, by decide, ?_⟩
  exact (addObjectTypeCode_inserts_first_child [("account", "1")] []
      [.elem "Name" [] [.text "account"]] (.elem "Name" [] [.text "account"]) []
      (by decide) (by decide)).trans (by decide)

/-- C3 counterexample: an Entity with an ObjectTypeCode child is itself
skipped, but the nested Entity inside it is still processed, so the outer
Entity's subtree changes and the run's counters move. -/
theorem addObjectTypeCode_skip_counterexample :
    entitySkipOuter
      = .elem "Entity" []
          [ .elem "ObjectTypeCode" [] [.text "1"],
            .elem "Entity" [] [.elem "Name" [] [.text "x"]] ]
    ∧ hasChildNamed "ObjectTypeCode"
        [ XNode.elem "ObjectTypeCode" [] [.text "1"],
          XNode.elem "Entity" [] [.elem "Name" [] [.text "x"]] ] = true
    ∧ addObjectTypeCodeDoc [] [entitySkipOuter]
        = ([XNode.elem "Entity" []
             [ .elem "ObjectTypeCode" [] [.text "1"],
               .elem "Entity" [] [otcNode "##", .elem "Name" [] [.text "x"]] ]],
           1, 1)
    ∧ (addObjectTypeCodeDoc [] [entitySkipOuter]).1 ≠ [entitySkipOuter] := by
  decide

/-- C3 amended: an Entity with at least one ObjectTypeCode descendant
receives no insertion itself and contributes nothing to either counter; its
children are still traversed, so nested Entity elements may be changed. -/
theorem addObjectTypeCode_skips_entity_with_code (tbl : List (String × String))
    (a : List (String × String)) (cs : List XNode)
    (h : collectList "ObjectTypeCode" cs ≠ []) :
    addObjectTypeCodeNode tbl (.elem "Entity" a cs)
      = (.elem "Entity" a (addObjectTypeCodeList tbl cs).1,
         (addObjectTypeCodeList tbl cs).2.1,
         (addObjectTypeCodeList tbl cs).2.2) := by
  have hl : ¬(collectList "ObjectTypeCode" cs).length = 0 := by
    simpa [List.length_eq_zero] using h
  simp [addObjectTypeCodeNode, entityStep, hl]

/-- Witness for the amended C3 on an entity holding one ObjectTypeCode. -/
theorem addObjectTypeCode_skips_entity_with_code_witness :
    collectList "ObjectTypeCode" [otcNode "9"] ≠ []
    ∧ addObjectTypeCodeNode [] (.elem "Entity" [] [otcNode "9"])
        = (.elem "Entity" [] [otcNode "9"], 0, 0) :=
  ⟨by decide,
    (addObjectTypeCode_skips_entity_with_code [] [] [otcNode "9"]
      (by decide)).trans (by decide)⟩

/-- C4 counterexample: an Entity with no Name child (only a Name nested
inside a Wrap child) and no ObjectTypeCode anywhere is not skipped: a
placeholder is inserted and both counters move. -/
theorem addObjectTypeCode_nested_name_counterexample :
    entityNestedNameOnly = .elem "Entity" [] [wrapNameChild]
    ∧ hasChildNamed "Name" [wrapNameChild] = false
    ∧ hasChildNamed "ObjectTypeCode" [wrapNameChild] = false
    ∧ collectList "ObjectTypeCode" [wrapNameChild] = []
    ∧ addObjectTypeCodeDoc [] [entityNestedNameOnly]
        = ([XNode.elem "Entity" [] [otcNode "##", wrapNameChild]], 1, 1) := by
  decide

/-- C4 amended: an Entity with no ObjectTypeCode descendant and no Name
descendant is skipped entirely: the whole subtree is returned unchanged and
neither counter moves. -/
theorem addObjectTypeCode_skips_entity_without_name
    (tbl : List (String × String)) (a : List (String × String))
    (cs : List XNode)
    (hOtc : countList "ObjectTypeCode" cs = 0)
    (hName : countList "Name" cs = 0) :
    addObjectTypeCodeNode tbl (.elem "Entity" a cs)
      = (.elem "Entity" a cs, 0, 0) :=
  addObjectTypeCodeNode_no_name tbl _ (by simp [countNode, hName])

/-- Witness for the amended C4 on an entity holding one empty Wrap child. -/
theorem addObjectTypeCode_skips_entity_without_name_witness :
    countList "ObjectTypeCode" [XNode.elem "Wrap" [] []] = 0
    ∧ countList "Name" [XNode.elem "Wrap" [] []] = 0
    ∧ addObjectTypeCodeNode [] (.elem "Entity" [] [.elem "Wrap" [] []])
        = (.elem "Entity" [] [.elem "Wrap" [] []], 0, 0) :=
  ⟨by decide, by decide,
    addObjectTypeCode_skips_entity_without_name [] [] [.elem "Wrap" [] []]
      (by decide) (by decide)⟩

/-- C5 counterexample: on the single record line "a,b,c" the loader maps
"a" to "b", the segment between the first and second commas, and not to
"b,c", the entire remainder after the first comma. -/
theorem loader_first_comma_counterexample :
    loadEntityTypeCodes (some "f.csv") (fun _ => some "a,b,c")
      = ([("a", "b")], false)
    ∧ List.lookup "a"
        (loadEntityTypeCodes (some "f.csv") (fun _ => some "a,b,c")).1
        = some "b"
    ∧ cleanField "b,c" = "b,c"
    ∧ ("b" : String) ≠ "b,c" := by decide

/-- C5 amended: each non-blank record line is split on every comma, only the
first two segments are kept, each is trimmed of whitespace and then stripped
of all double quotes, and the pair is inserted iff both results are
non-empty; an insertion for a key overwrites any earlier entry for that key
and leaves other keys' lookups unchanged. -/
theorem loadLine_characterization :
    (∀ (m : List (String × String)) (l : String),
      loadLine m l
        = match (charSplit ',' (strTrim l)).map cleanField with
          | e :: t :: _ =>
              if strTrim l ≠ "" ∧ e ≠ "" ∧ t ≠ "" then mapSet m e t else m
          | _ => m)
    ∧ (∀ (m : List (String × String)) (k v k' : String),
        List.lookup k' (mapSet m k v)
          = if k' = k then some v else List.lookup k' m) := by
  constructor
  · intro m l
    by_cases hl : strTrim l = ""
    · rw [show loadLine m l = m from by simp [loadLine, hl]]
      split
      · rw [if_neg (by simp [hl])]
      · rfl
    · cases hsp : (charSplit ',' (strTrim l)).map cleanField with
      | nil => simp [loadLine, hl, hsp]
      | cons e rest =>
        cases rest with
        | nil => simp [loadLine, hl, hsp]
        | cons t rest2 => simp [loadLine, hl, hsp]
  · intro m k v k'
    exact lookup_mapSet m k v k'
